import Mathlib

/-!
Verification of the `dbd` database helper tool (parameter-binding and
result-formatting engine) against its specification.

The engine is shallowly embedded: SQL statement text, separators and all
byte buffers are `List Char`; the external Driver Gateway and the external
value encoders are modelled as records of total functions, and every call
the engine makes to the gateway is recorded in an event trace.  Streams
(file arguments, stdin) are a store `List (List Char)` of remaining bytes
indexed by a handle number; reading a stream consumes its bytes.
-/

namespace Dbd

/-- Character of the statement text at offset `n`, `NUL` once past the end
(the C code scans the NUL-terminated buffer, so reads past the end of the
text observe the terminator). -/
def charAt (l : List Char) (n : Nat) : Char := l.getD n (Char.ofNat 0)

/-- The apr_dbd bind-parameter types (`apr_dbd_type_e`), plus `none_` for
`APR_DBD_TYPE_NONE` (the pcalloc default) and `string_` for
`APR_DBD_TYPE_STRING` (the fallback for untyped placeholders). -/
inductive DbdType where
  | none_ | int | uint | float | tiny | utiny | short | ushort
  | longlong | ulonglong | long | ulong | double
  | text | time | date | datetime | timestamp | ztimestamp
  | blob | clob | null_ | string_
deriving DecidableEq

/-- First counting loop of `dbd_arguments`: walks the statement text and
counts one bind parameter per `%` followed by an alphabetic character; a
literal `%%` is skipped as an escaped percent.  The loop advances one
character at a time (it does not skip the type letters). -/
def scanCount : List Char → Nat
  | [] => 0
  | [_] => 0
  | c :: c1 :: rest1 =>
    if c = '%' then
      if c1.isAlpha then 1 + scanCount (c1 :: rest1)
      else if c1 = '%' then scanCount rest1
      else scanCount (c1 :: rest1)
    else scanCount (c1 :: rest1)

/-- One step of the type-classification switch of `dbd_arguments`’s second
loop: given the current content of the (single, due to the missing `i++`)
type cell `t[0]` and the three characters after the `%`, return the new
cell content and the extra advance (`q += 0/1/2`) performed by the nested
switches.  An unmatched pattern leaves the cell untouched. -/
def scanStep (t0 : DbdType) (c1 c2 c3 : Char) : DbdType × Nat :=
  if c1 = 'd' then (DbdType.int, 0)
  else if c1 = 'u' then (DbdType.uint, 0)
  else if c1 = 'f' then (DbdType.float, 0)
  else if c1 = 'h' then
    if c2 = 'h' then
      if c3 = 'd' then (DbdType.tiny, 2)
      else if c3 = 'u' then (DbdType.utiny, 2)
      else (t0, 0)
    else if c2 = 'd' then (DbdType.short, 1)
    else if c2 = 'u' then (DbdType.ushort, 1)
    else (t0, 0)
  else if c1 = 'l' then
    if c2 = 'l' then
      if c3 = 'd' then (DbdType.longlong, 2)
      else if c3 = 'u' then (DbdType.ulonglong, 2)
      else (t0, 0)
    else if c2 = 'd' then (DbdType.long, 1)
    else if c2 = 'u' then (DbdType.ulong, 1)
    else if c2 = 'f' then (DbdType.double, 1)
    else (t0, 0)
  else if c1 = 'p' then
    if c2 = 'D' then
      if c3 = 't' then (DbdType.text, 2)
      else if c3 = 'i' then (DbdType.time, 2)
      else if c3 = 'd' then (DbdType.date, 2)
      else if c3 = 'a' then (DbdType.datetime, 2)
      else if c3 = 's' then (DbdType.timestamp, 2)
      else if c3 = 'z' then (DbdType.ztimestamp, 2)
      else if c3 = 'b' then (DbdType.blob, 2)
      else if c3 = 'c' then (DbdType.clob, 2)
      else if c3 = 'n' then (DbdType.null_, 2)
      else (t0, 0)
    else (t0, 0)
  else (t0, 0)

/-- Second loop of `dbd_arguments` (type scan), fuelled so that it computes
by kernel reduction; `fuel` at least the length of the text suffices since
every recursive call drops at least one character.  Returns the final
content of the type cell `t[0]` and the final `nvals`.  Faithful to the
source: this loop has no `%%` skip, and every occurrence classified blob
or clob adds 3 to `nvals` on top of the initial count. -/
def scanTypesF : Nat → List Char → DbdType → Nat → DbdType × Nat
  | 0, _, t0, n => (t0, n)
  | _ + 1, [], t0, n => (t0, n)
  | fuel + 1, c :: rest, t0, n =>
    if c = '%' && (charAt rest 0).isAlpha then
      let p := scanStep t0 (charAt rest 0) (charAt rest 1) (charAt rest 2)
      let t1 := if p.1 = DbdType.none_ then DbdType.string_ else p.1
      let n1 := if t1 = DbdType.blob || t1 = DbdType.clob then n + 3 else n
      scanTypesF fuel (rest.drop (1 + p.2)) t1 n1
    else scanTypesF fuel rest t0 n

/-- The second loop of `dbd_arguments` run as in the source: type cell
initially `APR_DBD_TYPE_NONE` (pcalloc), `nvals` initially `nargs`. -/
def scanPass2 (query : List Char) : DbdType × Nat :=
  scanTypesF (query.length + 1) query DbdType.none_ (scanCount query)

/-- Total number of physical bind slots allocated (`nvals`). -/
def nvalsOf (query : List Char) : Nat := (scanPass2 query).2

/-- Count, along the second loop’s own control flow, of the occurrences the
loop classifies as blob or clob (each of which adds 3 to `nvals`). -/
def blobCountF : Nat → List Char → DbdType → Nat
  | 0, _, _ => 0
  | _ + 1, [], _ => 0
  | fuel + 1, c :: rest, t0 =>
    if c = '%' && (charAt rest 0).isAlpha then
      let p := scanStep t0 (charAt rest 0) (charAt rest 1) (charAt rest 2)
      let t1 := if p.1 = DbdType.none_ then DbdType.string_ else p.1
      (if t1 = DbdType.blob || t1 = DbdType.clob then 1 else 0) +
        blobCountF fuel (rest.drop (1 + p.2)) t1
    else blobCountF fuel rest t0

/-- Blob/clob occurrence count of a statement, as classified by the code’s
second scanning loop. -/
def blobCountOf (query : List Char) : Nat :=
  blobCountF (query.length + 1) query DbdType.none_

/-- Spec-side count of bind-parameter descriptors, written from the spec’s
words: one descriptor per occurrence of `%` followed by an alphabetic
character, a literal `%%` never producing a descriptor. -/
def specOccCount : List Char → Nat
  | [] => 0
  | [_] => 0
  | c :: c1 :: rest1 =>
    if c = '%' then
      if c1 = '%' then specOccCount rest1
      else if c1.isAlpha then 1 + specOccCount rest1
      else specOccCount (c1 :: rest1)
    else specOccCount (c1 :: rest1)

/-- Modelled from the spec (§4.1 longest-match table): the type selected by
the character(s) following `%`, together with the extra characters consumed
beyond the first; a bare alphabetic with no recognized suffix is text. -/
def specType (c1 c2 c3 : Char) : DbdType × Nat :=
  if c1 = 'd' then (DbdType.int, 0)
  else if c1 = 'u' then (DbdType.uint, 0)
  else if c1 = 'f' then (DbdType.float, 0)
  else if c1 = 'h' then
    if c2 = 'h' then
      if c3 = 'd' then (DbdType.tiny, 2)
      else if c3 = 'u' then (DbdType.utiny, 2)
      else (DbdType.text, 0)
    else if c2 = 'd' then (DbdType.short, 1)
    else if c2 = 'u' then (DbdType.ushort, 1)
    else (DbdType.text, 0)
  else if c1 = 'l' then
    if c2 = 'l' then
      if c3 = 'd' then (DbdType.longlong, 2)
      else if c3 = 'u' then (DbdType.ulonglong, 2)
      else (DbdType.text, 0)
    else if c2 = 'd' then (DbdType.long, 1)
    else if c2 = 'u' then (DbdType.ulong, 1)
    else if c2 = 'f' then (DbdType.double, 1)
    else (DbdType.text, 0)
  else if c1 = 'p' then
    if c2 = 'D' then
      if c3 = 't' then (DbdType.text, 2)
      else if c3 = 'i' then (DbdType.time, 2)
      else if c3 = 'd' then (DbdType.date, 2)
      else if c3 = 'a' then (DbdType.datetime, 2)
      else if c3 = 's' then (DbdType.timestamp, 2)
      else if c3 = 'z' then (DbdType.ztimestamp, 2)
      else if c3 = 'b' then (DbdType.blob, 2)
      else if c3 = 'c' then (DbdType.clob, 2)
      else if c3 = 'n' then (DbdType.null_, 2)
      else (DbdType.text, 0)
    else (DbdType.text, 0)
  else (DbdType.text, 0)

/-- Modelled from the spec (§4.1): the ordered list of descriptor types of
a statement; `%%` is an escaped percent, `%` followed by an alphabetic
begins a parameter whose pattern characters are consumed. -/
def specScanF : Nat → List Char → List DbdType
  | 0, _ => []
  | _ + 1, [] => []
  | fuel + 1, c :: rest =>
    if c = '%' then
      match rest with
      | [] => []
      | c1 :: rest1 =>
        if c1 = '%' then specScanF fuel rest1
        else if c1.isAlpha then
          let p := specType c1 (charAt rest1 0) (charAt rest1 1)
          p.1 :: specScanF fuel (rest1.drop p.2)
        else specScanF fuel (c1 :: rest1)
    else specScanF fuel rest

/-- Spec-side descriptor list of a statement. -/
def specScan (query : List Char) : List DbdType :=
  specScanF (query.length + 1) query

/-- Modelled from the spec: the claimed total bind-slot count, each blob or
clob descriptor contributing 3 and every other descriptor contributing 1. -/
def specTotalSlots (query : List Char) : Nat :=
  ((specScan query).map
    (fun t => if t = DbdType.blob || t = DbdType.clob then 3 else 1)).sum

/-- Engine outcome statuses (the APR statuses the tool distinguishes):
`success` = APR_SUCCESS, `eof` = APR_EOF (also the end-of-result marker),
`einval` = APR_EINVAL, `egeneral` = APR_EGENERAL, `driverErr` for a status
returned by a failing driver call. -/
inductive Status where
  | success | eof | einval | egeneral | driverErr
deriving DecidableEq

/-- One argument source (`dbd_argument_t`): `encoded` is the literal string
of an `--argument` option, `fd` the handle of the stream of a
`--file-argument` option, both absent for `--null-argument`; `decoded` and
`size` hold the last resolved value, `status` the last read status. -/
structure Arg where
  encoded : Option (List Char) := none
  fd : Option Nat := none
  decoded : Option (List Char) := none
  size : Nat := 0
  status : Status := Status.success
deriving DecidableEq

def emptyArg : Arg := {}

/-- `apr_file_read_full` on a stream with `rem` bytes remaining, asked for
`want` bytes: succeeds (APR_SUCCESS) iff exactly `want` bytes could be
read, otherwise returns the remainder with APR_EOF. -/
def readFull (rem : List Char) (want : Nat) : List Char × List Char × Bool :=
  if want ≤ rem.length then (rem.take want, rem.drop want, true)
  else (rem, [], false)

/-- The file-draining loop of `dbd_resolve_argument`: repeatedly reads
`len - size - 1` bytes into a doubling buffer until a short read signals
end-of-stream, accumulating everything read.  Fuelled for kernel
computability; fuel beyond the remaining length never runs out because
every successful read consumes at least one byte (`len ≥ size + 2` is an
invariant, see `drainLoop_eq`). -/
def drainLoop : Nat → List Char → Nat → Nat → List Char → List Char
  | 0, acc, _, _, rem => acc ++ rem
  | fuel + 1, acc, len, size, rem =>
    let want := len - size - 1
    let r := readFull rem want
    if r.2.2 then drainLoop fuel (acc ++ r.1) (len * 2) (size + want) r.2.1
    else acc ++ r.1

/-- Drain a stream to end-of-stream, as the source does starting from a
1024-byte buffer. -/
def drainAll (rem : List Char) : List Char :=
  drainLoop (rem.length + 1) [] 1024 0 rem

/-- `dbd_resolve_argument`: a literal resolves to its own bytes (and can be
resolved again and again); a stream argument drains the stream from its
current position to end-of-stream, consuming it; a null argument resolves
to no bytes.  The stream store maps handles to remaining bytes. -/
def dbd_resolve_argument (streams : List (List Char)) (arg : Arg) :
    Arg × List (List Char) × Status :=
  match arg.encoded with
  | some s => ({ arg with decoded := some s, size := s.length }, streams, Status.success)
  | none =>
    match arg.fd with
    | some fd =>
      let d := drainAll (streams.getD fd [])
      ({ arg with decoded := some d, size := d.length, status := Status.eof },
        streams.set fd [], Status.eof)
    | none => (arg, streams, Status.success)

/-- A physical bind slot passed to the driver: a (possibly NULL) value
pointer, or the pointer to a blob’s length. -/
inductive Slot where
  | val (s : Option (List Char))
  | len (n : Nat)
deriving DecidableEq

/-- Events recording every call the engine makes to the Driver Gateway,
and every argument resolution. -/
inductive Ev where
  | openE
  | escapeE (s : List Char)
  | prepareE (q : List Char)
  | pbqueryE (q : List Char)
  | pbselectE (q : List Char)
  | resolveE (i : Nat)
deriving DecidableEq

def quoteCh : Char := Char.ofNat 39

/-- The error line printed on an argument-count mismatch, naming the
expected (`nargs`) and provided (`nelts`) counts. -/
def mismatchMsg (query : List Char) (nargs nelts : Nat) : List Char :=
  "DBD: Database query ".data ++ [quoteCh] ++ query ++ [quoteCh] ++
    " expects ".data ++ (Nat.repr nargs).data ++ " arguments, ".data ++
    (Nat.repr nelts).data ++ " provided.\n".data

/-- The error line printed when resolving an argument fails while reading. -/
def readFailMsg (query : List Char) : List Char :=
  "DBD: Database query ".data ++ [quoteCh] ++ query ++ [quoteCh] ++
    " failed while reading.\n".data

/-- Result of `dbd_arguments`: `vals = none` models the NULL return. -/
structure ArgsRes where
  vals : Option (List Slot)
  args : List Arg
  streams : List (List Char)
  errAdd : List Char
  evs : List Ev
deriving DecidableEq

/-- The value-filling loop of `dbd_arguments`: resolve each argument in
order while `i < nargs && j < nvals`; a blob/clob-classified position
stores value, length and two NULL slots advancing `j` by 4, every other
position stores the value at index `i` advancing `j` by 1.  Because the
scanning loop never increments its index, only cell 0 of the type array
was ever written: position 0 is classified by the final cell content and
every later position by `APR_DBD_TYPE_NONE`.  Fuelled by `nargs`, enough
since `i` increases every iteration. -/
def valsLoopF (query : List Char) (t0 : DbdType) (nargs nvals : Nat) :
    Nat → Nat → Nat → List Slot → List Arg → List (List Char) → List Ev → ArgsRes
  | 0, _, _, vals, args, streams, evs => ⟨some vals, args, streams, [], evs⟩
  | fuel + 1, i, j, vals, args, streams, evs =>
    if i < nargs && j < nvals then
      let rr := dbd_resolve_argument streams (args.getD i emptyArg)
      let args1 := args.set i rr.1
      let evs1 := evs ++ [Ev.resolveE i]
      match rr.2.2 with
      | Status.success | Status.eof =>
        let ti := if i = 0 then t0 else DbdType.none_
        if ti = DbdType.blob || ti = DbdType.clob then
          let vals1 := (((vals.set j (Slot.val rr.1.decoded)).set (j + 1)
            (Slot.len rr.1.size)).set (j + 2) (Slot.val none)).set (j + 3) (Slot.val none)
          valsLoopF query t0 nargs nvals fuel (i + 1) (j + 4) vals1 args1 rr.2.1 evs1
        else
          valsLoopF query t0 nargs nvals fuel (i + 1) (j + 1)
            (vals.set i (Slot.val rr.1.decoded)) args1 rr.2.1 evs1
      | _ => ⟨none, args1, rr.2.1, readFailMsg query, evs1⟩
    else ⟨some vals, args, streams, [], evs⟩

/-- `dbd_arguments`: scan the statement for bind parameters, validate that
the number of registered argument sources equals the number found, then
resolve each source into the flat slot array (pcalloc: initially all NULL
value slots). -/
def dbd_arguments (query : List Char) (args : List Arg)
    (streams : List (List Char)) : ArgsRes :=
  let nargs := scanCount query
  let nvals := nvalsOf query
  if args.length ≠ nargs then
    ⟨none, args, streams, mismatchMsg query nargs args.length, []⟩
  else
    valsLoopF query (scanPass2 query).1 nargs nvals nargs 0 0
      (List.replicate nvals (Slot.val none)) args streams []

/-- The external Driver Gateway, modelled as total functions: dialect
escaping, whether a prepare succeeds, the row count a DML statement
reports, and the column names and rows a select returns. -/
structure Driver where
  escape : List Char → List Char
  prepareOk : List Char → Bool
  queryRows : List Char → Nat
  selectCols : List Char → List (List Char)
  selectRows : List Char → List (List (List Char))

/-- The external value-encoder collaborators (`apr_pescape_echo`,
`apr_pencode_base64` plain and URL-safe), as total byte transformers. -/
structure Encoders where
  echoEnc : List Char → List Char
  base64Enc : List Char → List Char
  base64urlEnc : List Char → List Char

/-- `encode_buffer`: dispatch on the encoding name.  `echo`, `base64` and
`base64url` apply the collaborator and set the in/out size to the encoded
length; `none` returns the bytes but leaves the size variable untouched
(faithful to the source, which does not assign `*size` in that branch);
an unknown encoding fails. -/
def encode_buffer (enc : Encoders) (encoding : List Char) (v : List Char)
    (size : Nat) : Option (List Char × Nat) :=
  if encoding = "echo".data then some (enc.echoEnc v, (enc.echoEnc v).length)
  else if encoding = "base64".data then some (enc.base64Enc v, (enc.base64Enc v).length)
  else if encoding = "base64url".data then
    some (enc.base64urlEnc v, (enc.base64urlEnc v).length)
  else if encoding = "none".data then some (v, size)
  else none

/-- Output configuration of a run. -/
structure Config where
  eoc : List Char
  eol : List Char
  encoding : List Char
  header : Bool
  noeol : Bool

/-- The observable state of a run: bytes written to the output sink, bytes
written to the error sink, the current value of the `apr_size_t size`
variable, and the trace of gateway calls and resolutions. -/
structure RunSt where
  out : List Char
  err : List Char
  size : Nat
  events : List Ev
deriving DecidableEq

/-- `apr_file_write(out, buf, &size)`: append `size` bytes of `buf` to the
output and store the number of bytes written back into `size`. -/
def fwrite (st : RunSt) (buf : List Char) (n : Nat) : RunSt :=
  { st with out := st.out ++ buf.take n, size := min n buf.length }

/-- The `size = strlen(s); apr_file_write(out, s, &size)` idiom. -/
def writeStr (st : RunSt) (s : List Char) : RunSt :=
  fwrite st s s.length

/-- The column-writing loop of `run_select`, shared by the header names
and the row entries: before every cell except the first (`i > 0`) write
the end-of-column separator, then encode the cell and write it with
whatever byte count the encoder left in `size`.  Returns `false` when the
encoder rejected a value (APR_EGENERAL in the caller). -/
def writeCells (enc : Encoders) (cfg : Config) :
    List (List Char) → RunSt → Nat → RunSt × Bool
  | [], st, _ => (st, true)
  | cell :: rest, st, i =>
    let st1 := if 0 < i then writeStr st cfg.eoc else st
    match encode_buffer enc cfg.encoding cell st1.size with
    | none => (st1, false)
    | some ev => writeCells enc cfg rest (fwrite { st1 with size := ev.2 } ev.1 ev.2) (i + 1)

/-- The row loop of `run_select`: before each row, when anything was
already written (`end`), write the end-of-line separator; then write the
row’s entries; after a row, `end` is set.  Returns the state, whether all
encodes succeeded, and the final `end` flag. -/
def rowsLoop (enc : Encoders) (cfg : Config) :
    List (List (List Char)) → RunSt → Bool → RunSt × Bool × Bool
  | [], st, endf => (st, true, endf)
  | row :: rest, st, endf =>
    let st1 := if endf then writeStr st cfg.eol else st
    let r := writeCells enc cfg row st1 0
    if r.2 then rowsLoop enc cfg rest r.1 true else (r.1, false, true)

/-- The per-statement loop of `run_select` over the positional targets: in
table mode synthesize `select * from <escaped-name>`, prepare, resolve the
arguments, execute the select, optionally write the header names (the
header block runs once per statement and sets `end` iff at least one name
was written), then write the rows.  After the loop, write the final
end-of-line separator unless suppressed. -/
def selectLoop (drv : Driver) (enc : Encoders) (cfg : Config) (table : Bool) :
    List (List Char) → RunSt → List Arg → List (List Char) → Bool →
    Status × RunSt × List Arg × List (List Char)
  | [], st, args, streams, _ =>
    let st1 := if cfg.noeol then st else writeStr st cfg.eol
    (Status.success, st1, args, streams)
  | a :: restArgv, st, args, streams, endf =>
    let qp : List Char × RunSt :=
      if table then
        ("select * from ".data ++ drv.escape a,
          { st with events := st.events ++ [Ev.escapeE a] })
      else (a, st)
    let query := qp.1
    let st1 := { qp.2 with events := qp.2.events ++ [Ev.prepareE query] }
    if drv.prepareOk query then
      let r := dbd_arguments query args streams
      let st2 := { st1 with err := st1.err ++ r.errAdd, events := st1.events ++ r.evs }
      match r.vals with
      | none => (Status.einval, st2, r.args, r.streams)
      | some _ =>
        let st3 := { st2 with events := st2.events ++ [Ev.pbselectE query] }
        let names := drv.selectCols query
        let rows := drv.selectRows query
        let hr : (RunSt × Bool) × Bool :=
          if cfg.header then (writeCells enc cfg names st3 0, endf || !names.isEmpty)
          else ((st3, true), endf)
        if hr.1.2 then
          let rr := rowsLoop enc cfg rows hr.1.1 hr.2
          if rr.2.1 then
            selectLoop drv enc cfg table restArgv rr.1 r.args r.streams rr.2.2
          else (Status.egeneral, rr.1, r.args, r.streams)
        else (Status.egeneral, hr.1.1, r.args, r.streams)
    else (Status.driverErr, st1, args, streams)

/-- `run_select`: open the connection, then run the select loop over the
positional targets starting with nothing written; `sz0` is the arbitrary
initial content of the uninitialized `size` variable. -/
def run_select (drv : Driver) (enc : Encoders) (cfg : Config) (table : Bool)
    (args : List Arg) (streams : List (List Char)) (sz0 : Nat)
    (argv : List (List Char)) : Status × RunSt × List Arg × List (List Char) :=
  selectLoop drv enc cfg table argv
    { out := [], err := [], size := sz0, events := [Ev.openE] } args streams false

def oneQueryMsg : List Char :=
  "DBD: one query needs to be specified.\n".data

def prepareFailMsg (query : List Char) : List Char :=
  "DBD: Database prepare query ".data ++ [quoteCh] ++ query ++ [quoteCh] ++
    " failed.\n".data

/-- `run_query` (modify-query mode): open the connection; exactly one
statement must be supplied, otherwise print an error and return APR_EOF;
prepare it, resolve the arguments against it, execute it for a row count,
print the count in decimal, write the end-of-line separator unless
suppressed, and return APR_SUCCESS when rows were affected and APR_EOF
otherwise. -/
def run_query (drv : Driver) (cfg : Config) (args : List Arg)
    (streams : List (List Char)) (argv : List (List Char)) :
    Status × RunSt × List Arg × List (List Char) :=
  let st : RunSt := { out := [], err := [], size := 0, events := [Ev.openE] }
  match argv with
  | [q] =>
    let st1 := { st with events := st.events ++ [Ev.prepareE q] }
    if drv.prepareOk q then
      let r := dbd_arguments q args streams
      let st2 := { st1 with err := st1.err ++ r.errAdd, events := st1.events ++ r.evs }
      match r.vals with
      | none => (Status.einval, st2, r.args, r.streams)
      | some _ =>
        let st3 := { st2 with events := st2.events ++ [Ev.pbqueryE q] }
        let rows := drv.queryRows q
        let st4 := { st3 with out := st3.out ++ (Nat.repr rows).data }
        let st5 := if cfg.noeol then st4 else writeStr st4 cfg.eol
        (if rows = 0 then Status.eof else Status.success, st5, r.args, r.streams)
    else (Status.driverErr, { st1 with err := st1.err ++ prepareFailMsg q }, args, streams)
  | _ =>
    (Status.eof, { st with err := st.err ++ oneQueryMsg }, args, streams)

/-- The state built by `main`’s option loop for file arguments: the hash
of already-opened streams keyed by file name, the stream store (handle 0
is standard input), the trace of actual file opens, and the argument list
in registration order. -/
structure FdSt where
  fds : List (List Char × Nat)
  streams : List (List Char)
  opens : List (List Char)
  args : List Arg
deriving DecidableEq

/-- Name lookup in the open-stream hash. -/
def lookupFd : List (List Char × Nat) → List Char → Option Nat
  | [], _ => none
  | (k, h) :: t, n => if k = n then some h else lookupFd t n

/-- `main`’s handling of one `--file-argument` occurrence: `-` binds the
shared stdin handle; otherwise the name is looked up among the streams
already opened, and only when absent is the file opened and cached. -/
def addFileArg (contents : List Char → List Char) (st : FdSt)
    (name : List Char) : FdSt :=
  if name = "-".data then
    { st with args := st.args ++ [{ emptyArg with fd := some 0 }] }
  else
    match lookupFd st.fds name with
    | some h => { st with args := st.args ++ [{ emptyArg with fd := some h }] }
    | none =>
      let h := st.streams.length
      { fds := (name, h) :: st.fds,
        streams := st.streams ++ [contents name],
        opens := st.opens ++ [name],
        args := st.args ++ [{ emptyArg with fd := some h }] }

/-- Initial state: only standard input is open. -/
def initFdSt (stdinData : List Char) : FdSt :=
  { fds := [], streams := [stdinData], opens := [], args := [] }

/-- Process the `--file-argument` occurrences of a command line in order. -/
def processFileArgs (contents : List Char → List Char) (stdinData : List Char)
    (names : List (List Char)) : FdSt :=
  names.foldl (addFileArg contents) (initFdSt stdinData)

/-- The stream handle a file-argument name is bound to in a given state:
`-` is the shared stdin handle, any other name the handle cached for it. -/
def assignFd (st : FdSt) (n : List Char) : Option Nat :=
  if n = "-".data then some 0 else lookupFd st.fds n

/-- Join line or column contents with a separator between consecutive
elements and nothing before the first or after the last. -/
def joinSep (sep : List Char) : List (List Char) → List Char
  | [] => []
  | [x] => x
  | x :: y :: t => x ++ sep ++ joinSep sep (y :: t)

/-- The encodings whose `encode_buffer` branch assigns the size variable,
together with the byte transformer applied. -/
def sizedEncoder (enc : Encoders) (encoding : List Char) :
    Option (List Char → List Char) :=
  if encoding = "echo".data then some enc.echoEnc
  else if encoding = "base64".data then some enc.base64Enc
  else if encoding = "base64url".data then some enc.base64urlEnc
  else none

/-- Identity encoders, standing in for arbitrary external collaborators in
concrete runs. -/
def encId : Encoders :=
  { echoEnc := fun l => l
    base64Enc := fun l => l
    base64urlEnc := fun l => l }

/-- A mock driver whose selects return one column `n` with a single row
`x`, and whose DML row count is 0. -/
def drvSelect1 : Driver :=
  { escape := fun l => l
    prepareOk := fun _ => true
    queryRows := fun _ => 0
    selectCols := fun _ => [ "n".data ]
    selectRows := fun _ => [ [ "x".data ] ] }

/-- A mock driver returning columns id, name and two rows. -/
def drvTwoRows : Driver :=
  { escape := fun l => l
    prepareOk := fun _ => true
    queryRows := fun _ => 0
    selectCols := fun _ => [ "id".data, "name".data ]
    selectRows := fun _ => [ [ "1".data, "Alice".data ], [ "2".data, "Bob".data ] ] }

/-- A mock driver returning one row with a short and a long column value. -/
def drvWide : Driver :=
  { escape := fun l => l
    prepareOk := fun _ => true
    queryRows := fun _ => 0
    selectCols := fun _ => [ "c1".data, "c2".data ]
    selectRows := fun _ => [ [ "ab".data, "defg".data ] ] }

/-- Comma-separated, newline-terminated, echo-encoded, header on. -/
def cfgEchoHdr : Config :=
  { eoc := ",".data
    eol := "\n".data
    encoding := "echo".data
    header := true
    noeol := false }

/-- Comma-separated, newline-terminated, `none` encoding, header off. -/
def cfgNoneBare : Config :=
  { eoc := ",".data
    eol := "\n".data
    encoding := "none".data
    header := false
    noeol := false }

/-- Fixed file contents for concrete file-argument runs. -/
def cFix : List Char → List Char := fun _ => "F".data

/-- A command line naming the same file twice and stdin once. -/
def nsFix : List (List Char) :=
  [ "a".data, "b".data, "a".data, "-".data ]

theorem joinSep_cons (sep : List Char) :
    ∀ (xs : List (List Char)) (x : List Char),
      joinSep sep (x :: xs) = x ++ (xs.map (fun z => sep ++ z)).flatten := by
  intro xs
  induction xs with
  | nil => intro x; simp [joinSep]
  | cons y t ih =>
    intro x
    show x ++ sep ++ joinSep sep (y :: t) = _
    rw [ih y]
    simp

theorem drainLoop_eq :
    ∀ (fuel : Nat) (acc : List Char) (len size : Nat) (rem : List Char),
      size + 2 ≤ len → rem.length < fuel →
      drainLoop fuel acc len size rem = acc ++ rem := by
  intro fuel
  induction fuel with
  | zero => intro _ _ _ rem _ hf; exact absurd hf (Nat.not_lt_zero _)
  | succ fuel ih =>
    intro acc len size rem hlen hf
    show (let want := len - size - 1
          let r := readFull rem want
          if r.2.2 then drainLoop fuel (acc ++ r.1) (len * 2) (size + want) r.2.1
          else acc ++ r.1) = acc ++ rem
    simp only [readFull]
    by_cases h : len - size - 1 ≤ rem.length
    · simp only [h, if_true]
      rw [ih (acc ++ rem.take (len - size - 1)) (len * 2)
            (size + (len - size - 1)) (rem.drop (len - size - 1))
            (by omega) (by simp [List.length_drop]; omega)]
      simp [List.take_append_drop]
    · simp [h]

theorem drainAll_eq (rem : List Char) : drainAll rem = rem := by
  have h := drainLoop_eq (rem.length + 1) [] 1024 0 rem (by omega) (by omega)
  simpa [drainAll] using h

theorem scanCount_eq_specOccCount : ∀ l : List Char, scanCount l = specOccCount l := by
  have key : ∀ (n : Nat) (l : List Char), l.length ≤ n → scanCount l = specOccCount l := by
    intro n
    induction n with
    | zero =>
      intro l hl
      have : l = [] := List.length_eq_zero.mp (Nat.le_zero.mp hl)
      subst this; rfl
    | succ n ih =>
      intro l hl
      match l with
      | [] => rfl
      | [c] => rfl
      | c :: c1 :: rest1 =>
        show scanCount (c :: c1 :: rest1) = specOccCount (c :: c1 :: rest1)
        by_cases hc : c = '%'
        · by_cases h1 : c1 = '%'
          · have hna : ¬ c1.isAlpha := by subst h1; decide
            simp only [scanCount, specOccCount, hc, h1, hna, if_true, if_false,
              Bool.false_eq_true]
            exact ih rest1 (by simp at hl ⊢; omega)
          · by_cases ha : c1.isAlpha
            · simp only [scanCount, specOccCount, hc, h1, ha, if_true, if_false]
              have h2 : scanCount (c1 :: rest1) = scanCount rest1 := by
                match rest1 with
                | [] => rfl
                | d :: t => simp only [scanCount, h1, if_false]
              rw [h2]
              have h3 := ih rest1 (by simp at hl ⊢; omega)
              omega
            · simp only [scanCount, specOccCount, hc, h1, ha, if_true, if_false,
                Bool.false_eq_true]
              exact ih (c1 :: rest1) (by simp at hl ⊢; omega)
        · simp only [scanCount, specOccCount, hc, if_false]
          exact ih (c1 :: rest1) (by simp at hl ⊢; omega)
  intro l; exact key l.length l le_rfl

theorem scanTypesF_eq_blobCount :
    ∀ (fuel : Nat) (l : List Char) (t0 : DbdType) (n : Nat),
      (scanTypesF fuel l t0 n).2 = n + 3 * blobCountF fuel l t0 := by
  intro fuel
  induction fuel with
  | zero => intro l t0 n; simp [scanTypesF, blobCountF]
  | succ fuel ih =>
    intro l t0 n
    cases l with
    | nil => simp [scanTypesF, blobCountF]
    | cons c rest =>
      show (if c = '%' && (charAt rest 0).isAlpha then _ else _ : DbdType × Nat).2 = _
      by_cases h : (c = '%' && (charAt rest 0).isAlpha : Bool)
      · simp only [scanTypesF, blobCountF, h, if_true]
        set p := scanStep t0 (charAt rest 0) (charAt rest 1) (charAt rest 2) with hp
        set t1 := if p.1 = DbdType.none_ then DbdType.string_ else p.1 with ht1
        by_cases hb : (t1 = DbdType.blob || t1 = DbdType.clob : Bool)
        · simp only [hb, if_true]
          rw [ih]
          omega
        · simp only [hb, if_false, Bool.false_eq_true]
          rw [ih]
          omega
      · simp only [scanTypesF, blobCountF, h, if_false, Bool.false_eq_true]
        exact ih rest t0 n

theorem nvalsOf_eq (q : List Char) :
    nvalsOf q = scanCount q + 3 * blobCountOf q := by
  unfold nvalsOf scanPass2 blobCountOf
  exact scanTypesF_eq_blobCount (q.length + 1) q DbdType.none_ (scanCount q)

theorem encode_buffer_sized {enc : Encoders} {encoding : List Char}
    {f : List Char → List Char} (henc : sizedEncoder enc encoding = some f)
    (v : List Char) (sz : Nat) :
    encode_buffer enc encoding v sz = some (f v, (f v).length) := by
  unfold sizedEncoder at henc
  unfold encode_buffer
  split_ifs at henc ⊢ <;> simp_all

theorem writeCells_sized_pos {enc : Encoders} {cfg : Config}
    {f : List Char → List Char} (henc : sizedEncoder enc cfg.encoding = some f) :
    ∀ (cells : List (List Char)) (st : RunSt) (i : Nat), 0 < i →
      ∃ sz, writeCells enc cfg cells st i =
        ({ out := st.out ++ (cells.map (fun z => cfg.eoc ++ f z)).flatten,
           err := st.err, size := sz, events := st.events }, true) := by
  intro cells
  induction cells with
  | nil => intro st i _; exact ⟨st.size, by simp [writeCells]⟩
  | cons cell rest ih =>
    intro st i hi
    obtain ⟨sz, hsz⟩ := ih (fwrite { writeStr st cfg.eoc with size := (f cell).length }
      (f cell) (f cell).length) (i + 1) (by omega)
    refine ⟨sz, ?_⟩
    simp only [writeCells, if_pos hi, encode_buffer_sized henc]
    rw [hsz]
    simp [fwrite, writeStr]

theorem writeCells_sized_zero {enc : Encoders} {cfg : Config}
    {f : List Char → List Char} (henc : sizedEncoder enc cfg.encoding = some f) :
    ∀ (cells : List (List Char)) (st : RunSt),
      ∃ sz, writeCells enc cfg cells st 0 =
        ({ out := st.out ++ joinSep cfg.eoc (cells.map f),
           err := st.err, size := sz, events := st.events }, true) := by
  intro cells st
  cases cells with
  | nil => exact ⟨st.size, by simp [writeCells, joinSep]⟩
  | cons cell rest =>
    obtain ⟨sz, hsz⟩ := writeCells_sized_pos henc rest
      (fwrite { st with size := (f cell).length } (f cell) (f cell).length) 1 Nat.one_pos
    refine ⟨sz, ?_⟩
    simp only [writeCells, Nat.lt_irrefl, if_false, encode_buffer_sized henc]
    rw [hsz]
    simp [fwrite, joinSep_cons, Function.comp_def]

theorem rowsLoop_sized {enc : Encoders} {cfg : Config}
    {f : List Char → List Char} (henc : sizedEncoder enc cfg.encoding = some f) :
    ∀ (rows : List (List (List Char))) (st : RunSt),
      ∃ sz, rowsLoop enc cfg rows st true =
        ({ out := st.out ++
             (rows.map (fun r => cfg.eol ++ joinSep cfg.eoc (r.map f))).flatten,
           err := st.err, size := sz, events := st.events }, true, true) := by
  intro rows
  induction rows with
  | nil => intro st; exact ⟨st.size, by simp [rowsLoop]⟩
  | cons row rest ih =>
    intro st
    obtain ⟨sz1, hw⟩ := writeCells_sized_zero henc row (writeStr st cfg.eol)
    obtain ⟨sz2, hr⟩ := ih
      { out := (writeStr st cfg.eol).out ++ joinSep cfg.eoc (row.map f)
        err := (writeStr st cfg.eol).err
        size := sz1
        events := (writeStr st cfg.eol).events }
    refine ⟨sz2, ?_⟩
    simp only [rowsLoop, if_true]
    rw [hw]
    simp only [if_true]
    rw [hr]
    simp [writeStr, fwrite]

theorem dbd_arguments_mismatch {query : List Char} {args : List Arg}
    (streams : List (List Char)) (h : args.length ≠ scanCount query) :
    dbd_arguments query args streams =
      ⟨none, args, streams, mismatchMsg query (scanCount query) args.length, []⟩ := by
  unfold dbd_arguments
  simp [h]

theorem dbd_arguments_noargs {query : List Char} (streams : List (List Char))
    (h : scanCount query = 0) :
    dbd_arguments query [] streams =
      ⟨some (List.replicate (nvalsOf query) (Slot.val none)), [], streams, [], []⟩ := by
  unfold dbd_arguments
  simp only [List.length_nil, h, ne_eq, not_true_eq_false, if_false]
  rfl

theorem lookupFd_addFileArg (contents : List Char → List Char) (st : FdSt)
    (m n : List Char) (h : Nat) (hl : lookupFd st.fds n = some h) :
    lookupFd (addFileArg contents st m).fds n = some h := by
  unfold addFileArg
  by_cases hm : m = "-".data
  · simp [hm, hl]
  · simp only [hm, if_false]
    cases he : lookupFd st.fds m with
    | some k => simp [hl]
    | none =>
      simp only [lookupFd]
      have hmn : m ≠ n := by
        intro heq
        rw [heq] at he
        rw [he] at hl
        exact Option.noConfusion hl
      simp [hmn, hl]

theorem lookupFd_foldl (contents : List Char → List Char) :
    ∀ (ns : List (List Char)) (st : FdSt) (n : List Char) (h : Nat),
      lookupFd st.fds n = some h →
      lookupFd (List.foldl (addFileArg contents) st ns).fds n = some h := by
  intro ns
  induction ns with
  | nil => intro st n h hl; simpa using hl
  | cons m t ih =>
    intro st n h hl
    exact ih (addFileArg contents st m) n h (lookupFd_addFileArg contents st m n h hl)

theorem assignFd_addFileArg_self (contents : List Char → List Char)
    (st : FdSt) (n : List Char) :
    ∃ h, assignFd (addFileArg contents st n) n = some h ∧
      (addFileArg contents st n).args =
        st.args ++ [{ emptyArg with fd := some h }] := by
  unfold assignFd addFileArg
  by_cases hn : n = "-".data
  · exact ⟨0, by simp [hn]⟩
  · simp only [hn, if_false]
    cases he : lookupFd st.fds n with
    | some k => exact ⟨k, by simp [he]⟩
    | none =>
      refine ⟨st.streams.length, ?_, ?_⟩
      · simp [lookupFd]
      · simp

theorem foldl_addFileArg_args (contents : List Char → List Char) :
    ∀ (ns : List (List Char)) (st : FdSt),
      (List.foldl (addFileArg contents) st ns).args =
        st.args ++ ns.map (fun n =>
          { emptyArg with
            fd := assignFd (List.foldl (addFileArg contents) st ns) n }) := by
  intro ns
  induction ns with
  | nil => intro st; simp
  | cons n t ih =>
    intro st
    show (List.foldl (addFileArg contents) (addFileArg contents st n) t).args = _
    rw [ih (addFileArg contents st n)]
    obtain ⟨h, hassign, hargs⟩ := assignFd_addFileArg_self contents st n
    have hfinal : assignFd (List.foldl (addFileArg contents) (addFileArg contents st n) t) n = some h := by
      unfold assignFd at hassign ⊢
      by_cases hn : n = "-".data
      · simpa [hn] using hassign
      · simp only [hn, if_false] at hassign ⊢
        exact lookupFd_foldl contents t (addFileArg contents st n) n h hassign
    rw [hargs]
    have hmap : ∀ m ∈ t, assignFd (List.foldl (addFileArg contents) (addFileArg contents st n) t) m =
        assignFd (List.foldl (addFileArg contents) st (n :: t)) m := by
      intro m _; rfl
    simp [hfinal, List.append_assoc]

theorem foldl_addFileArg_opens (contents : List Char → List Char) :
    ∀ (ns : List (List Char)) (st : FdSt),
      st.opens.Nodup →
      (∀ n ∈ st.opens, (lookupFd st.fds n).isSome ∧ n ≠ "-".data) →
      (List.foldl (addFileArg contents) st ns).opens.Nodup ∧
        (∀ n ∈ (List.foldl (addFileArg contents) st ns).opens,
          (lookupFd (List.foldl (addFileArg contents) st ns).fds n).isSome ∧
            n ≠ "-".data) := by
  intro ns
  induction ns with
  | nil => intro st h1 h2; exact ⟨h1, h2⟩
  | cons m t ih =>
    intro st h1 h2
    apply ih (addFileArg contents st m)
    · unfold addFileArg
      by_cases hm : m = "-".data
      · simpa [hm] using h1
      · simp only [hm, if_false]
        cases he : lookupFd st.fds m with
        | some k => simpa using h1
        | none =>
          have hnot : m ∉ st.opens := by
            intro hmem
            have := (h2 m hmem).1
            rw [he] at this
            exact Bool.noConfusion this
          simp [List.nodup_append, h1, hnot]
    · intro n hn
      unfold addFileArg at hn ⊢
      by_cases hm : m = "-".data
      · simp only [hm, if_true] at hn ⊢
        exact h2 n hn
      · simp only [hm, if_false] at hn ⊢
        cases he : lookupFd st.fds m with
        | some k =>
          simp only [he] at hn ⊢
          exact h2 n hn
        | none =>
          simp only [he] at hn ⊢
          simp only [List.mem_append, List.mem_singleton] at hn
          cases hn with
          | inl hmem =>
            refine ⟨?_, (h2 n hmem).2⟩
            simp only [lookupFd]
            by_cases hmn : m = n
            · simp [hmn]
            · simp only [hmn, if_false]
              exact (h2 n hmem).1
          | inr heq =>
            subst heq
            refine ⟨?_, hm⟩
            simp [lookupFd]

theorem getD_set_of_lt {α : Type} :
    ∀ (l : List α) (n : Nat) (a d : α), n < l.length →
      (l.set n a).getD n d = a := by
  intro l
  induction l with
  | nil => intro n a d h; simp at h
  | cons x t ih =>
    intro n a d h
    cases n with
    | zero => rfl
    | succ m => exact ih m a d (by simpa using h)

theorem getD_map_of_lt {α β : Type} :
    ∀ (l : List α) (g : α → β) (n : Nat) (d : β) (d0 : α), n < l.length →
      (l.map g).getD n d = g (l.getD n d0) := by
  intro l
  induction l with
  | nil => intro g n d d0 h; simp at h
  | cons x t ih =>
    intro g n d d0 h
    cases n with
    | zero => rfl
    | succ m => exact ih g m d d0 (by simpa using h)

theorem length_filter_eq_le_one {α : Type} [DecidableEq α] :
    ∀ (l : List α), l.Nodup → ∀ a, (l.filter (fun m => m = a)).length ≤ 1 := by
  intro l
  induction l with
  | nil => intro _ a; simp
  | cons x t ih =>
    intro h a
    rw [List.filter_cons]
    by_cases hx : x = a
    · have hend : t.filter (fun m => decide (m = a)) = [] := by
        rw [List.filter_eq_nil_iff]
        intro m hm
        have hxt : x ∉ t := (List.nodup_cons.mp h).1
        subst hx
        simp only [decide_eq_true_eq]
        intro hma
        exact hxt (hma ▸ hm)
      simp [hx, hend]
    · simpa [hx] using ih (List.nodup_cons.mp h).2 a

/-- C1 (amended): the Scanner reports exactly one Bind Parameter Descriptor
per occurrence of `%` followed by an alphabetic character that is not part
of a literal `%%` (so the descriptor count matches the spec reading), but
the total bind-slot count is the descriptor count plus 3 extra slots for
every occurrence the scanning pass classifies as blob or clob — that is,
a blob/clob descriptor occupies 4 slots (value, length and two reserved
NULL slots), not 3, every other descriptor occupying 1. -/
theorem scanner_descriptor_and_slot_count (q : List Char) :
    scanCount q = specOccCount q ∧
    nvalsOf q = scanCount q + 3 * blobCountOf q :=
  ⟨scanCount_eq_specOccCount q, nvalsOf_eq q⟩

/-- C1 counterexample: the statement `%pDb` has exactly one descriptor, a
blob; the claim predicts a total of 3 bind slots (each blob contributing
3), but the code allocates and fills 4 (`nvals = nargs + 3`). -/
theorem scanner_blob_slot_count_counterexample :
    scanCount "%pDb".data = 1 ∧ specTotalSlots "%pDb".data = 3 ∧
      nvalsOf "%pDb".data = 4 ∧
      nvalsOf "%pDb".data ≠ specTotalSlots "%pDb".data := by
  refine ⟨by decide, by decide, by decide, by decide⟩

/-- C2 (amended): when the number of registered Argument Sources differs
from the Scanner’s descriptor count, `run_query` fails with APR_EINVAL and
an error naming the expected and actual counts; the failure happens before
any argument value is read (the argument and stream states are untouched
and no resolve event occurs) and before the statement is executed — but
after the connection has been opened and the statement prepared, both of
which are Driver Gateway calls. -/
theorem mismatch_fails_before_read (drv : Driver) (cfg : Config)
    (args : List Arg) (streams : List (List Char)) (q : List Char)
    (hp : drv.prepareOk q = true) (hm : args.length ≠ scanCount q) :
    run_query drv cfg args streams [q] =
      (Status.einval,
        { out := [], err := mismatchMsg q (scanCount q) args.length, size := 0,
          events := [Ev.openE, Ev.prepareE q] }, args, streams) ∧
    List.IsInfix (Nat.repr (scanCount q)).data
      (mismatchMsg q (scanCount q) args.length) ∧
    List.IsInfix (Nat.repr args.length).data
      (mismatchMsg q (scanCount q) args.length) := by
  refine ⟨?_, ?_, ?_⟩
  · unfold run_query
    simp [hp, dbd_arguments_mismatch streams hm]
  · exact ⟨"DBD: Database query ".data ++ [quoteCh] ++ q ++ [quoteCh] ++ " expects ".data,
      " arguments, ".data ++ (Nat.repr args.length).data ++ " provided.\n".data,
      by simp [mismatchMsg]⟩
  · exact ⟨"DBD: Database query ".data ++ [quoteCh] ++ q ++ [quoteCh] ++ " expects ".data ++
        (Nat.repr (scanCount q)).data ++ " arguments, ".data,
      " provided.\n".data,
      by simp [mismatchMsg]⟩

/-- C2 witness: a concrete mismatch run (statement `sel %d`, no argument
sources). -/
theorem mismatch_fails_before_read_witness :
    run_query drvSelect1 cfgEchoHdr [] [] [ "sel %d".data ] =
      (Status.einval,
        { out := [], err := mismatchMsg "sel %d".data 1 0, size := 0,
          events := [Ev.openE, Ev.prepareE "sel %d".data] }, [], []) :=
  (mismatch_fails_before_read drvSelect1 cfgEchoHdr [] [] "sel %d".data rfl
    (by decide)).1

/-- C2 counterexample: at this mismatched input a Driver Gateway call (the
statement prepare) has already been made when the validation failure is
reported, refuting the claim that the failure occurs before any call to
the Driver Gateway. -/
theorem mismatch_prepare_called_counterexample :
    ([] : List Arg).length ≠ scanCount "sel %d".data ∧
    Ev.prepareE "sel %d".data ∈
      (run_query drvSelect1 cfgEchoHdr [] [] [ "sel %d".data ]).2.1.events := by
  refine ⟨by decide, by decide⟩

/-- C5 (amended): when a number of statements other than exactly one is
supplied to modify-query mode, the engine fails after the driver
connection has been opened (an `openE` call is on the trace) but before
any prepare, resolution or execution, with nothing written to the output
sink; the failure status is APR_EOF — the same status as the EmptyResult
end-of-result condition, not a distinct validation error. -/
theorem query_requires_single_statement (drv : Driver) (cfg : Config)
    (args : List Arg) (streams : List (List Char)) (argv : List (List Char))
    (h : argv.length ≠ 1) :
    run_query drv cfg args streams argv =
      (Status.eof,
        { out := [], err := oneQueryMsg, size := 0, events := [Ev.openE] },
        args, streams) := by
  match argv with
  | [] => rfl
  | [q] => exact (h (by simp)).elim
  | a :: b :: t => rfl

/-- C5 witness: zero statements supplied to modify-query mode. -/
theorem query_requires_single_statement_witness :
    run_query drvSelect1 cfgEchoHdr [] [] [] =
      (Status.eof,
        { out := [], err := oneQueryMsg, size := 0, events := [Ev.openE] },
        [], []) :=
  query_requires_single_statement drvSelect1 cfgEchoHdr [] [] [] (by decide)

/-- C5 counterexample: a two-statement modify-query run returns APR_EOF
with the connection already opened — the same status a well-formed
zero-rows run returns — refuting both “detected before any I/O (no driver
connection)” and “distinct from the EmptyResult condition”. -/
theorem query_multi_statement_counterexample :
    (run_query drvSelect1 cfgEchoHdr [] [] [ "a".data, "b".data ]).1 = Status.eof ∧
    Ev.openE ∈ (run_query drvSelect1 cfgEchoHdr [] [] [ "a".data, "b".data ]).2.1.events ∧
    (run_query drvSelect1 cfgEchoHdr [] [] [ "q0".data ]).1 = Status.eof := by
  refine ⟨by decide, by decide, by decide⟩

/-- C6: in modify-query mode with a well-formed statement the engine emits
the decimal representation of the affected row count followed by the line
separator unless suppressed, and returns APR_SUCCESS exactly when the
count is positive and the EmptyResult status APR_EOF otherwise; for zero
rows the digit 0 is still emitted. -/
theorem query_scalar_rowcount (drv : Driver) (cfg : Config) (q : List Char)
    (streams : List (List Char)) (hp : drv.prepareOk q = true)
    (hq : scanCount q = 0) :
    ((run_query drv cfg [] streams [q]).1 = Status.success ↔
      0 < drv.queryRows q) ∧
    (run_query drv cfg [] streams [q]).1 =
      (if drv.queryRows q = 0 then Status.eof else Status.success) ∧
    (run_query drv cfg [] streams [q]).2.1.out =
      (Nat.repr (drv.queryRows q)).data ++ (if cfg.noeol then [] else cfg.eol) := by
  have hrun : run_query drv cfg [] streams [q] =
      ((if drv.queryRows q = 0 then Status.eof else Status.success),
        (if cfg.noeol then
          { out := (Nat.repr (drv.queryRows q)).data, err := [], size := 0,
            events := [Ev.openE, Ev.prepareE q, Ev.pbqueryE q] }
         else writeStr
          { out := (Nat.repr (drv.queryRows q)).data, err := [], size := 0,
            events := [Ev.openE, Ev.prepareE q, Ev.pbqueryE q] } cfg.eol),
        [], streams) := by
    unfold run_query
    simp [hp, dbd_arguments_noargs streams hq]
  refine ⟨?_, ?_, ?_⟩
  · rw [hrun]
    by_cases h0 : drv.queryRows q = 0
    · simp [h0]
    · simp only [h0, if_false]
      simpa using Nat.pos_of_ne_zero h0
  · rw [hrun]
  · rw [hrun]
    by_cases hne : cfg.noeol
    · simp [hne]
    · simp [hne, writeStr, fwrite]

/-- C6 witness: a zero-rows run emits the byte 0 followed by the line
separator and signals the EmptyResult status APR_EOF. -/
theorem query_scalar_rowcount_witness :
    (run_query drvSelect1 cfgEchoHdr [] [] [ "upd".data ]).1 = Status.eof ∧
    (run_query drvSelect1 cfgEchoHdr [] [] [ "upd".data ]).2.1.out = "0\n".data := by
  have h := query_scalar_rowcount drvSelect1 cfgEchoHdr "upd".data [] rfl (by decide)
  exact ⟨by simpa using h.2.1, by simpa using h.2.2⟩

/-- C3 (amended): in tabular mode with header emission enabled and exactly
one statement processed (with a size-setting encoding and at least one
column), the header line is written exactly once, before the first data
row; every line is separated from the next by exactly one line separator,
no separator precedes the very first line, and for N data rows the output
is exactly the N+1 line contents joined by N line separators, with a
trailing line separator unless suppress-final-line-separator is set.
(When several statements are processed the header is re-emitted for each
statement, without a preceding line separator — see the counterexample.) -/
theorem select_single_statement_output (drv : Driver) (enc : Encoders)
    (cfg : Config) (f : List Char → List Char) (q : List Char)
    (streams : List (List Char)) (sz0 : Nat)
    (henc : sizedEncoder enc cfg.encoding = some f)
    (hh : cfg.header = true) (hp : drv.prepareOk q = true)
    (hq : scanCount q = 0) (hn : drv.selectCols q ≠ []) :
    (run_select drv enc cfg false [] streams sz0 [q]).1 = Status.success ∧
    (run_select drv enc cfg false [] streams sz0 [q]).2.1.out =
      joinSep cfg.eol
        (joinSep cfg.eoc ((drv.selectCols q).map f) ::
          (drv.selectRows q).map (fun r => joinSep cfg.eoc (r.map f))) ++
        (if cfg.noeol then [] else cfg.eol) := by
  obtain ⟨sz1, hw⟩ := writeCells_sized_zero henc (drv.selectCols q)
    { out := [], err := [], size := sz0,
      events := [Ev.openE, Ev.prepareE q, Ev.pbselectE q] }
  obtain ⟨sz2, hr⟩ := rowsLoop_sized henc (drv.selectRows q)
    { out := joinSep cfg.eoc ((drv.selectCols q).map f), err := [], size := sz1,
      events := [Ev.openE, Ev.prepareE q, Ev.pbselectE q] }
  have hne : (drv.selectCols q).isEmpty = false := by
    cases hcols : drv.selectCols q with
    | nil => exact absurd hcols hn
    | cons x t => rfl
  have hrun : run_select drv enc cfg false [] streams sz0 [q] =
      (Status.success,
        (if cfg.noeol then
          { out := joinSep cfg.eoc ((drv.selectCols q).map f) ++
              ((drv.selectRows q).map
                (fun r => cfg.eol ++ joinSep cfg.eoc (r.map f))).flatten,
            err := [], size := sz2,
            events := [Ev.openE, Ev.prepareE q, Ev.pbselectE q] }
         else writeStr
          { out := joinSep cfg.eoc ((drv.selectCols q).map f) ++
              ((drv.selectRows q).map
                (fun r => cfg.eol ++ joinSep cfg.eoc (r.map f))).flatten,
            err := [], size := sz2,
            events := [Ev.openE, Ev.prepareE q, Ev.pbselectE q] } cfg.eol),
        [], streams) := by
    unfold run_select
    simp only [selectLoop, Bool.false_eq_true, if_false, hp, if_true,
      dbd_arguments_noargs streams hq, hh, hne, Bool.not_false, Bool.or_true,
      List.append_nil, List.nil_append, List.singleton_append, List.cons_append,
      hw, hr]
  constructor
  · rw [hrun]
  · rw [hrun]
    have hjoin : joinSep cfg.eol
        (joinSep cfg.eoc ((drv.selectCols q).map f) ::
          (drv.selectRows q).map (fun r => joinSep cfg.eoc (r.map f))) =
        joinSep cfg.eoc ((drv.selectCols q).map f) ++
          ((drv.selectRows q).map
            (fun r => cfg.eol ++ joinSep cfg.eoc (r.map f))).flatten := by
      rw [joinSep_cons]
      simp [List.map_map, Function.comp_def]
    by_cases hne2 : cfg.noeol
    · simp [hne2, hjoin]
    · simp [hne2, hjoin, writeStr, fwrite]

/-- C3 witness: one statement, two rows, comma and newline separators,
header on: the header appears once and each line is terminated. -/
theorem select_single_statement_output_witness :
    (run_select drvTwoRows encId cfgEchoHdr false [] [] 0 [ "select".data ]).1 =
      Status.success ∧
    (run_select drvTwoRows encId cfgEchoHdr false [] [] 0 [ "select".data ]).2.1.out =
      "id,name\n1,Alice\n2,Bob\n".data := by
  have h := select_single_statement_output drvTwoRows encId cfgEchoHdr
    (fun l => l) "select".data [] 0 rfl rfl rfl (by decide) (by decide)
  exact ⟨h.1, by rw [h.2]; decide⟩

/-- C3 counterexample: with two statements and header enabled the header
line is emitted once per statement (and the repeat is not preceded by a
line separator), so the output is not the claimed single-header,
evenly-separated stream. -/
theorem header_repeats_counterexample :
    (run_select drvSelect1 encId cfgEchoHdr false [] [] 0
      [ "a".data, "b".data ]).2.1.out = "n\nxn\nx\n".data ∧
    (run_select drvSelect1 encId cfgEchoHdr false [] [] 0
      [ "a".data, "b".data ]).2.1.out ≠ "n\nx\nx\n".data := by
  refine ⟨by decide, by decide⟩

/-- C4 (code bug): with the `none` encoding the engine is supposed to pass
the value’s bytes through unchanged, but `encode_buffer` fails to assign
the in/out size variable in the `none` branch, so the write uses the stale
byte count of the previously written string: here the second column value
`defg` is written as the single byte `d` (the stale count is the length of
the 1-byte column separator), while the run still reports success.  The
first conjunct shows `encode_buffer` itself returning the full bytes with
the stale size. -/
theorem encoding_none_truncates_output :
    encode_buffer encId "none".data "defg".data 1 = some ("defg".data, 1) ∧
    (run_select drvWide encId cfgNoneBare false [] [] 2 [ "sel".data ]).1 =
      Status.success ∧
    (run_select drvWide encId cfgNoneBare false [] [] 2 [ "sel".data ]).2.1.out =
      "ab,d\n".data ∧
    (run_select drvWide encId cfgNoneBare false [] [] 2 [ "sel".data ]).2.1.out ≠
      "ab,defg\n".data := by
  refine ⟨by decide, by decide, by decide, by decide⟩

/-- C10: in select or table mode with zero positional targets the engine
makes no prepare or execute call against the driver (only the connection
open appears on the trace), returns success, leaves the argument sources
and streams untouched, and the entire output is exactly one line
separator, or empty when suppress-final-line-separator is set. -/
theorem select_zero_targets (drv : Driver) (enc : Encoders) (cfg : Config)
    (table : Bool) (args : List Arg) (streams : List (List Char)) (sz0 : Nat) :
    (run_select drv enc cfg table args streams sz0 []).1 = Status.success ∧
    (run_select drv enc cfg table args streams sz0 []).2.1.out =
      (if cfg.noeol then [] else cfg.eol) ∧
    (run_select drv enc cfg table args streams sz0 []).2.1.events = [Ev.openE] ∧
    (run_select drv enc cfg table args streams sz0 []).2.1.err = [] ∧
    (run_select drv enc cfg table args streams sz0 []).2.2.1 = args ∧
    (run_select drv enc cfg table args streams sz0 []).2.2.2 = streams := by
  by_cases hne : cfg.noeol
  · refine ⟨?_, ?_, ?_, ?_, ?_, ?_⟩ <;>
      simp [run_select, selectLoop, hne, writeStr, fwrite]
  · refine ⟨?_, ?_, ?_, ?_, ?_, ?_⟩ <;>
      simp [run_select, selectLoop, hne, writeStr, fwrite]

/-- C7: resolving a stream Argument Source drains the stream from its
current position to end-of-stream into the resolved value and leaves the
stream empty; a second resolution of the same handle (by any argument
source bound to it) yields no bytes at all, so it never repeats bytes
already returned by the first resolution. -/
theorem stream_resolution_no_replay (streams : List (List Char)) (h : Nat)
    (arg1 arg2 : Arg) (h1e : arg1.encoded = none) (h1f : arg1.fd = some h)
    (h2e : arg2.encoded = none) (h2f : arg2.fd = some h)
    (hlt : h < streams.length) :
    (dbd_resolve_argument streams arg1).1.decoded = some (streams.getD h []) ∧
    (dbd_resolve_argument streams arg1).2.1.getD h [] = [] ∧
    (dbd_resolve_argument
      (dbd_resolve_argument streams arg1).2.1 arg2).1.decoded = some [] := by
  have hres1 : dbd_resolve_argument streams arg1 =
      ({ arg1 with
          decoded := some (streams.getD h [])
          size := (streams.getD h []).length
          status := Status.eof },
        streams.set h [], Status.eof) := by
    unfold dbd_resolve_argument
    rw [h1e, h1f]
    simp [drainAll_eq]
  refine ⟨by rw [hres1], by rw [hres1]; simp [List.getElem?_set_self hlt], ?_⟩
  rw [hres1]
  unfold dbd_resolve_argument
  rw [h2e, h2f]
  simp [drainAll_eq, List.getElem?_set_self hlt]

/-- C7 witness: a five-byte stream is drained whole by the first
resolution and yields nothing on the second. -/
theorem stream_resolution_no_replay_witness :
    (dbd_resolve_argument [ "hello".data ] { emptyArg with fd := some 0 }).1.decoded =
      some "hello".data ∧
    (dbd_resolve_argument
      (dbd_resolve_argument [ "hello".data ]
        { emptyArg with fd := some 0 }).2.1
      { emptyArg with fd := some 0 }).1.decoded = some [] := by
  have h := stream_resolution_no_replay [ "hello".data ] 0
    { emptyArg with fd := some 0 } { emptyArg with fd := some 0 }
    rfl rfl rfl rfl (by decide)
  exact ⟨by simpa using h.1, h.2.2⟩

/-- C8: resolving a literal Argument Source yields its own bytes and their
length, leaves the stream store untouched, and is a fixed point: a second
resolution (and hence any number of resolutions) yields byte-identical
results. -/
theorem literal_resolution_idempotent (streams : List (List Char))
    (arg : Arg) (s : List Char) (he : arg.encoded = some s) :
    dbd_resolve_argument streams arg =
      ({ arg with decoded := some s, size := s.length }, streams, Status.success) ∧
    dbd_resolve_argument streams (dbd_resolve_argument streams arg).1 =
      ({ arg with decoded := some s, size := s.length }, streams, Status.success) := by
  have h1 : dbd_resolve_argument streams arg =
      ({ arg with decoded := some s, size := s.length }, streams, Status.success) := by
    unfold dbd_resolve_argument
    rw [he]
  refine ⟨h1, ?_⟩
  rw [h1]
  unfold dbd_resolve_argument
  simp [he]

/-- C8 witness: a concrete literal resolved twice gives the same bytes and
length both times. -/
theorem literal_resolution_idempotent_witness :
    dbd_resolve_argument [] { emptyArg with encoded := some "lit".data } =
      ({ emptyArg with
          encoded := some "lit".data
          decoded := some "lit".data
          size := 3 }, [], Status.success) ∧
    dbd_resolve_argument []
      (dbd_resolve_argument [] { emptyArg with encoded := some "lit".data }).1 =
      ({ emptyArg with
          encoded := some "lit".data
          decoded := some "lit".data
          size := 3 }, [], Status.success) := by
  have h := literal_resolution_idempotent []
    { emptyArg with encoded := some "lit".data } "lit".data rfl
  exact ⟨h.1, h.2⟩

/-- C9: over a whole run, each named file used as a stream-backed argument
source is opened at most once and never for the name `-`; every
file-argument occurrence naming the same file (or `-` for standard input)
is bound to the same shared handle, so a repeat reference reuses the
existing handle rather than re-opening the file. -/
theorem file_arguments_cached (contents : List Char → List Char)
    (stdinData : List Char) (names : List (List Char)) :
    (∀ n, ((processFileArgs contents stdinData names).opens.filter
      (fun m => m = n)).length ≤ 1) ∧
    (∀ n ∈ (processFileArgs contents stdinData names).opens, n ≠ "-".data) ∧
    (processFileArgs contents stdinData names).args.length = names.length ∧
    (∀ i j, i < names.length → j < names.length →
      names.getD i [] = names.getD j [] →
      ((processFileArgs contents stdinData names).args.getD i emptyArg).fd =
        ((processFileArgs contents stdinData names).args.getD j emptyArg).fd) := by
  have hop := foldl_addFileArg_opens contents names
    (initFdSt stdinData) (by simp [initFdSt]) (by simp [initFdSt])
  have hargs := foldl_addFileArg_args contents names (initFdSt stdinData)
  refine ⟨?_, ?_, ?_, ?_⟩
  · intro n
    exact length_filter_eq_le_one _ hop.1 n
  · intro n hn
    exact (hop.2 n hn).2
  · show (List.foldl (addFileArg contents) (initFdSt stdinData) names).args.length = _
    rw [hargs]
    simp [initFdSt]
  · intro i j hi hj hnames
    show ((List.foldl (addFileArg contents) (initFdSt stdinData) names).args.getD i emptyArg).fd =
      ((List.foldl (addFileArg contents) (initFdSt stdinData) names).args.getD j emptyArg).fd
    rw [hargs]
    simp only [initFdSt, List.nil_append]
    rw [getD_map_of_lt names _ i emptyArg [] hi,
      getD_map_of_lt names _ j emptyArg [] hj, hnames]

/-- C9 witness: for the command line naming file `a`, file `b`, file `a`
again and stdin, each file is opened at most once and the two references
to `a` share one handle. -/
theorem file_arguments_cached_witness :
    ((processFileArgs cFix "S".data nsFix).opens.filter
      (fun m => m = "a".data)).length ≤ 1 ∧
    ((processFileArgs cFix "S".data nsFix).args.getD 0 emptyArg).fd =
      ((processFileArgs cFix "S".data nsFix).args.getD 2 emptyArg).fd := by
  have h := file_arguments_cached cFix "S".data nsFix
  exact ⟨h.1 "a".data, h.2.2.2 0 2 (by decide) (by decide) (by decide)⟩

end Dbd
